import Mathlib

/- Shallow embedding of src/app.py (LinkedIn Automation Tool).
   The two subsystems with nontrivial behaviour are embedded from the source:
   the Discovery Engine (search_linkedin_profiles) and the Delivery Pipeline
   (process_linkedin_profile and its helpers).  The behaviour of the external
   search provider and of the external directory HTTP API is passed in as an
   explicit environment value, so every function here is a total, executable
   Lean function of its inputs and of that environment. -/

namespace Linke

/-- ASCII fragment of the whitespace class matched by the regex escape for
whitespace in Python patterns; every string in this development is ASCII. -/
def isPySpace (c : Char) : Bool :=
  c == ' ' || c == '\t' || c == '\n' || c == '\r' || c == '\x0b' || c == '\x0c'

/-- Characters allowed in the username segment of the discovery regex:
the character class excluding the slash and whitespace. -/
def segChar (c : Char) : Bool := !(c == '/') && !(isPySpace c)

/-- Embeds the regex suffix after the capture group: an optional slash
followed by whitespace or the end of the string.  The end-of-string anchor
also matches before a trailing newline in Python, but a newline is already
whitespace, so this Boolean is faithful. -/
def tailOk : List Char → Bool
  | [] => true
  | c :: cs =>
    if isPySpace c then true
    else if c == '/' then
      match cs with
      | [] => true
      | d :: _ => isPySpace d
    else false

/-- The literal part of the discovery pattern after the scheme. -/
def inLit : List Char := "linkedin.com/in/".data

/-- True when the discovery pattern can finish at this position: the literal
host-and-path part, then a nonempty username segment, then tailOk. -/
def scanHit (s : List Char) : Bool :=
  inLit.isPrefixOf s
    && !((s.drop 16).takeWhile segChar).isEmpty
    && tailOk ((s.drop 16).dropWhile segChar)

/-- The capture (group 1) produced at a hit position: everything matched so
far plus the literal and the username segment; the optional trailing slash
is outside the group. -/
def mkCap (acc s : List Char) : List Char :=
  acc ++ inLit ++ (s.drop 16).takeWhile segChar

/-- Embeds the lazy middle of the discovery regex: extend the dot-star
character by character, never across a newline, until the literal and the
username segment match.  acc holds the characters consumed so far, which
belong to the capture group. -/
def scanIn : List Char → List Char → Option (List Char)
  | _, [] => none
  | acc, c :: rest =>
    if scanHit (c :: rest) then some (mkCap acc (c :: rest))
    else if c == '\n' then none
    else scanIn (acc ++ [c]) rest

/-- Embeds an anchored attempt of the discovery pattern at one position:
the scheme (the optional letter preferred first), then the lazy middle. -/
def tryAt (s : List Char) : Option (List Char) :=
  if "https://".data.isPrefixOf s then scanIn "https://".data (s.drop 8)
  else if "http://".data.isPrefixOf s then scanIn "http://".data (s.drop 7)
  else none

/-- Embeds the first match of profile_pattern over the whole string:
positions are tried left to right, as findall does, and the code keeps
only the first capture. -/
def findCapture : List Char → Option (List Char)
  | [] => none
  | c :: rest =>
    match tryAt (c :: rest) with
    | some g => some g
    | none => findCapture rest

/-- First capture of profile_pattern.findall on a result URL, as used at
lines 121 to 123 and 160 to 162 of src/app.py. -/
def findProfileUrl (url : String) : Option String :=
  (findCapture url.data).map String.mk

/-- Characters the urlsplit scheme may contain. -/
def schemeChar (c : Char) : Bool :=
  c.isAlpha || c.isDigit || c == '+' || c == '-' || c == '.'

/-- Embeds the scheme-stripping step of urlsplit: when the text before the
first colon is a nonempty run of scheme characters starting with a letter,
the scheme and the colon are removed. -/
def stripScheme (s : List Char) : List Char :=
  match s.findIdx? (· == ':') with
  | none => s
  | some i =>
    if 0 < i ∧ (s.take i).all schemeChar = true ∧ s.head?.any Char.isAlpha = true then
      s.drop (i + 1)
    else s

/-- Embeds the netloc-stripping step of urlsplit: after a double slash the
authority runs to the first slash, question mark or hash. -/
def dropNetloc (s : List Char) : List Char :=
  if "//".data.isPrefixOf s then
    (s.drop 2).dropWhile fun c => !(c == '/' || c == '?' || c == '#')
  else s

/-- The path component of urlparse: scheme and netloc removed, fragment and
query cut off, in the order urlsplit applies them. -/
def urlPath (s : List Char) : List Char :=
  ((dropNetloc (stripScheme s)).takeWhile fun c => !(c == '#')).takeWhile
    fun c => !(c == '?')

/-- Python strip on ASCII whitespace. -/
def pyStrip (s : List Char) : List Char :=
  ((s.dropWhile isPySpace).reverse.dropWhile isPySpace).reverse

/-- The username pattern literal searched inside the path. -/
def inSegLit : List Char := "/in/".data

/-- Embeds re.search of the username pattern over the path: leftmost
position where the literal is followed by a nonempty run of non-slash
characters; the greedy class takes the maximal run, which is the capture. -/
def searchInSeg : List Char → Option (List Char)
  | [] => none
  | c :: rest =>
    if inSegLit.isPrefixOf (c :: rest)
        && !(((c :: rest).drop 4).takeWhile (fun d => !(d == '/'))).isEmpty then
      some (((c :: rest).drop 4).takeWhile (fun d => !(d == '/')))
    else searchInSeg rest

/-- Embeds extract_linkedin_username (src/app.py lines 192 to 210): the
falsy-empty check, urlparse of the stripped URL, and the path search. -/
def extract_linkedin_username (url : String) : Option String :=
  if url.isEmpty then none
  else (searchInSeg (urlPath (pyStrip url.data))).map String.mk

/- ===== Discovery Engine (search_linkedin_profiles, lines 81 to 187) ===== -/

/-- The behaviour of the external search provider: each query string either
returns an ordered list of result URLs or fails with an exception text. -/
def SearchEnv : Type := String → Except String (List String)

/-- The three targeted query strings built at lines 94 to 98. -/
def targetedQueries (kw desc : String) : List String :=
  [ "site:linkedin.com/in \"" ++ kw ++ "\" \"" ++ desc ++ "\"",
    "inurl:linkedin.com/in \"" ++ kw ++ "\" \"" ++ desc ++ "\"",
    "site:linkedin.com/in intitle:\"" ++ kw ++ "\" \"" ++ desc ++ "\"" ]

/-- The broadening query built at line 154. -/
def broadQuery (kw : String) : String :=
  "site:linkedin.com/in \"" ++ kw ++ "\""

/-- The per-URL loop of a targeted query (lines 119 to 140).  Arguments:
cap is num_results, i the query index, n the length of search_results,
j the URL index, acc the accumulated profile URLs.  Returns the new
accumulator, the values reported to the progress bar inside the loop, and
whether the cap was reached, which in the source is an early return after
reporting full progress.  Progress arithmetic is modelled exactly over the
rationals; nothing proved below depends on float rounding. -/
def urlLoopT (cap i n : Nat) : Nat → List String → List String →
    List String × List ℚ × Bool
  | _, acc, [] => (acc, [], false)
  | j, acc, url :: rest =>
    let subProg : ℚ :=
      min (1/2 + ((i : ℚ) + ((j : ℚ) + 1) / (n : ℚ)) / 3 * (1/2)) (9/10)
    match findProfileUrl url with
    | none =>
      let r := urlLoopT cap i n (j + 1) acc rest
      (r.1, subProg :: r.2.1, r.2.2)
    | some p =>
      if p ∈ acc then
        let r := urlLoopT cap i n (j + 1) acc rest
        (r.1, subProg :: r.2.1, r.2.2)
      else
        if cap ≤ acc.length + 1 then (acc ++ [p], [1], true)
        else
          let r := urlLoopT cap i n (j + 1) (acc ++ [p]) rest
          (r.1, subProg :: r.2.1, r.2.2)

/-- The query loop of the targeted phase (lines 110 to 146): reports the
start-of-query fraction, runs the query, skips it on failure, and short
circuits when the URL loop reached the cap. -/
def queryLoopT (env : SearchEnv) (cap : Nat) : Nat → List String →
    List String → List String × List ℚ × Bool
  | _, acc, [] => (acc, [], false)
  | i, acc, q :: qs =>
    let startP : ℚ := (i : ℚ) / 3 * (1/2)
    match env q with
    | .error _ =>
      let r := queryLoopT env cap (i + 1) acc qs
      (r.1, startP :: r.2.1, r.2.2)
    | .ok urls =>
      let u := urlLoopT cap i urls.length 0 acc urls
      if u.2.2 then (u.1, startP :: u.2.1, true)
      else
        let r := queryLoopT env cap (i + 1) u.1 qs
        (r.1, startP :: u.2.1 ++ r.2.1, r.2.2)

/-- The per-URL loop of the broadening query (lines 159 to 173): the cap
check breaks out before the progress report of that iteration. -/
def urlLoopB (cap n : Nat) : Nat → List String → List String →
    List String × List ℚ
  | _, acc, [] => (acc, [])
  | j, acc, url :: rest =>
    let p : ℚ := min (9/10 + ((j : ℚ) + 1) / (n : ℚ) * (1/10)) (99/100)
    match findProfileUrl url with
    | none =>
      let r := urlLoopB cap n (j + 1) acc rest
      (r.1, p :: r.2)
    | some u =>
      if u ∈ acc then
        let r := urlLoopB cap n (j + 1) acc rest
        (r.1, p :: r.2)
      else
        if cap ≤ acc.length + 1 then (acc ++ [u], [])
        else
          let r := urlLoopB cap n (j + 1) (acc ++ [u]) rest
          (r.1, p :: r.2)

/-- Embeds search_linkedin_profiles together with the sequence of values it
reports to the progress bar: the initial zero, the loop reports, and the
final full report, which the early return inside the targeted phase
replaces with its own full report. -/
def searchWithProgress (env : SearchEnv) (kw desc : String) (num : Nat) :
    List String × List ℚ :=
  let t := queryLoopT env num 0 [] (targetedQueries kw desc)
  if t.2.2 then (t.1, 0 :: t.2.1)
  else if t.1.length < num then
    match env (broadQuery kw) with
    | .error _ => (t.1, 0 :: t.2.1 ++ [1])
    | .ok urls =>
      let b := urlLoopB num urls.length 0 t.1 urls
      (b.1, 0 :: t.2.1 ++ b.2 ++ [1])
  else (t.1, 0 :: t.2.1 ++ [1])

/-- The list of profile URLs returned by search_linkedin_profiles. -/
def search_linkedin_profiles (env : SearchEnv) (kw desc : String)
    (num : Nat) : List String :=
  (searchWithProgress env kw desc num).1

/- ===== Personalization (lines 368 to 381) ===== -/

/-- Python str.capitalize: the first character upper-cased and every
remaining character lower-cased. -/
def pyCapitalize (s : String) : String :=
  match s.data with
  | [] => ""
  | c :: rest => String.mk (c.toUpper :: rest.map Char.toLower)

/-- The name placeholder as a character list. -/
def namePh : List Char := ['\x7b', 'n', 'a', 'm', 'e', '\x7d']

/-- The job title placeholder as a character list. -/
def jobPh : List Char := ['\x7b', 'j', 'o', 'b', '_', 't', 'i', 't', 'l', 'e', '\x7d']

/-- The job title placeholder without its left brace. -/
def jobTail : List Char := ['j', 'o', 'b', '_', 't', 'i', 't', 'l', 'e', '\x7d']

/-- Python str.replace specialized to the name placeholder, with explicit
fuel so that the recursion is structural: one left-to-right pass,
non-overlapping, the substituted text is not rescanned.  The fuel never
runs out when it starts at the length of the scanned list. -/
def replNameF (nm : List Char) : Nat → List Char → List Char
  | 0, s => s
  | _ + 1, [] => []
  | k + 1, c :: rest =>
    if namePh.isPrefixOf (c :: rest) then nm ++ replNameF nm k (rest.drop 5)
    else c :: replNameF nm k rest

/-- Python str.replace of the name placeholder. -/
def replName (nm s : List Char) : List Char := replNameF nm s.length s

/-- Python str.replace specialized to the job title placeholder, with the
same fuel device. -/
def replJobF (jt : List Char) : Nat → List Char → List Char
  | 0, s => s
  | _ + 1, [] => []
  | k + 1, c :: rest =>
    if jobPh.isPrefixOf (c :: rest) then jt ++ replJobF jt k (rest.drop 10)
    else c :: replJobF jt k rest

/-- Python str.replace of the job title placeholder. -/
def replJob (jt s : List Char) : List Char := replJobF jt s.length s

/-- The personalization applied to each template at lines 374 to 378: the
name placeholder is replaced by the capitalized username, then the job
title placeholder is replaced by the job title. -/
def personalizeText (tmpl username job_title : String) : String :=
  String.mk (replJob job_title.data (replName (pyCapitalize username).data tmpl.data))

/-- Modelled from the spec: the capitalization the spec claims, first
character upper-cased and the remaining characters unchanged. -/
def specCapitalize (s : String) : String :=
  match s.data with
  | [] => ""
  | c :: rest => String.mk (c.toUpper :: rest)

/-- Modelled from the spec: simultaneous one-pass literal substitution of
the two placeholders, every other character, including unmatched braces,
passing through unchanged.  Fuel as in the replacement passes. -/
def simultSubstF (nm jt : List Char) : Nat → List Char → List Char
  | 0, s => s
  | _ + 1, [] => []
  | k + 1, c :: rest =>
    if namePh.isPrefixOf (c :: rest) then nm ++ simultSubstF nm jt k (rest.drop 5)
    else if jobPh.isPrefixOf (c :: rest) then jt ++ simultSubstF nm jt k (rest.drop 10)
    else c :: simultSubstF nm jt k rest

/-- Modelled from the spec: the simultaneous substitution at full fuel. -/
def simultSubst (nm jt s : List Char) : List Char := simultSubstF nm jt s.length s

/-- Modelled from the spec: personalization as the claim states it, with
the remaining username characters unchanged. -/
def claimPersonalize (tmpl username job_title : String) : String :=
  String.mk (simultSubst (specCapitalize username).data job_title.data tmpl.data)

/-- A template is brace-clean when every suffix that starts with a left
brace starts with one of the two literal placeholders. -/
def wfTmpl : List Char → Bool
  | [] => true
  | c :: rest =>
    (!(c == '\x7b') || namePh.isPrefixOf (c :: rest) || jobPh.isPrefixOf (c :: rest))
      && wfTmpl rest

/-- True when the name placeholder occurs in the text. -/
def hasNamePh : List Char → Bool
  | [] => false
  | c :: rest => namePh.isPrefixOf (c :: rest) || hasNamePh rest

/-- True when the job title placeholder occurs in the text. -/
def hasJobPh : List Char → Bool
  | [] => false
  | c :: rest => jobPh.isPrefixOf (c :: rest) || hasJobPh rest

/- ===== Directory API model and Delivery Pipeline (lines 213 to 403) ===== -/

/-- A parsed JSON body from the directory: either not an object, or an
object with the fields the code reads.  The experience list keeps, for each
entry, whether a title field is present and its value. -/
inductive JBody where
  | notDict : JBody
  | dict (provider_id : Option String) (headline : String)
      (experience : List (Option String)) : JBody
deriving DecidableEq, Repr

/-- Outcome of one GET exchange with the directory: either the request call
raised with some exception text, or a response arrived with a status code,
a body text, and, when the body parses as JSON, its parsed form. -/
inductive HttpResult where
  | netError (msg : String) : HttpResult
  | response (status : Nat) (text : String) (json : Option JBody) : HttpResult
deriving DecidableEq, Repr

/-- Outcome of one POST exchange for the send operations, where the body is
never parsed. -/
inductive PostResult where
  | netError (msg : String) : PostResult
  | response (status : Nat) (text : String) : PostResult
deriving DecidableEq, Repr

/-- The one Python exception the pipeline can leak: the attribute access on
a JSON body that is not a dict inside get_user_provider_id, which only
catches request exceptions. -/
inductive PyExn where
  | attributeError : PyExn
deriving DecidableEq, Repr

/-- raise_for_status raises exactly for statuses from 400 to 599. -/
def raisesStatus (st : Nat) : Bool := 400 ≤ st && st < 600

/-- Truthiness of a requests Response object is its ok flag, which is false
exactly when raise_for_status would raise. -/
def respTruthy (st : Nat) : Bool := !raisesStatus st

/-- Abbreviation of the str form of the HTTPError that raise_for_status
raises; only its nonemptiness matters below. -/
def httpErrorMsg (st : Nat) : String :=
  toString st ++ (if st < 500 then " Client Error" else " Server Error")

/-- Abbreviation of the str form of the JSON decoding error raised by the
json method on an unparseable body; in the requests library this error is a
request exception, so the caller catches it.  Only nonemptiness matters. -/
def jsonErrorMsg : String := "Expecting value"

/-- The behaviour of the external directory API during one profile run:
one GET for the provider id, one GET inside extract_job_title, one POST for
the message and one POST for the invite.  Each call happens at most once. -/
structure DirEnv where
  resolveResp : HttpResult
  jobResp : HttpResult
  msgResp : PostResult
  invResp : PostResult

/-- Embeds get_user_provider_id (lines 247 to 278).  A request exception is
caught and its text returned; its attached response is falsy for every
status raise_for_status raises on, so the branch appending the response
text never fires.  A JSON body that is not a dict makes the attribute
access raise, and that exception is not caught. -/
def get_user_provider_id (r : HttpResult) :
    Except PyExn (Option String × Option String) :=
  match r with
  | .netError m => .ok (none, some m)
  | .response st text json =>
    if raisesStatus st then
      .ok (none, some (if respTruthy st then httpErrorMsg st ++ ": " ++ text
                       else httpErrorMsg st))
    else
      match json with
      | none => .ok (none, some jsonErrorMsg)
      | some .notDict => .error .attributeError
      | some (.dict pid _ _) =>
        match pid with
        | none => .ok (none, some "Could not find provider_id in the response")
        | some p =>
          if p = "" then .ok (none, some "Could not find provider_id in the response")
          else .ok (some p, none)

/-- Embeds extract_job_title (lines 213 to 244).  The bare except catches
every failure, including the JSON and attribute errors, so the function is
total and returns the generic label on every failure path. -/
def extract_job_title (r : HttpResult) : String :=
  match r with
  | .netError _ => "Professional"
  | .response st _ json =>
    if raisesStatus st then "Professional"
    else
      match json with
      | none => "Professional"
      | some .notDict => "Professional"
      | some (.dict _ headline experience) =>
        match experience with
        | some t :: _ => t
        | _ => if headline ≠ "" then headline else "Professional"

/-- Embeds send_message (lines 281 to 306).  On an HTTP error the attached
response is falsy, so the branch returning the Failed-to-send text with the
response body never fires; it is kept to mirror the source. -/
def send_message (r : PostResult) : Bool × String :=
  match r with
  | .netError m => (false, "Error sending message: " ++ m)
  | .response st text =>
    if raisesStatus st then
      if respTruthy st && (st == 400 || st == 403) then
        (false, "Failed to send message: " ++ text)
      else (false, "Error sending message: " ++ httpErrorMsg st)
    else (true, "Message sent successfully")

/-- Embeds send_connection_request (lines 309 to 334), with the same falsy
response remark as send_message. -/
def send_connection_request (r : PostResult) : Bool × String :=
  match r with
  | .netError m => (false, "Error sending connection request: " ++ m)
  | .response st text =>
    if raisesStatus st then
      (false, "Error sending connection request: " ++
        (if respTruthy st then httpErrorMsg st ++ ": " ++ text else httpErrorMsg st))
    else (true, "Connection request sent successfully")

/-- The per-profile result record (lines 340 to 348). -/
structure OutreachResult where
  url : String
  username : Option String := none
  job_title : Option String := none
  provider_id : Option String := none
  action : Option String := none
  status : Option String := none
  error : Option String := none
deriving DecidableEq, Repr

/-- Python truthiness of the optional error string used at line 361: None
and the empty string are falsy. -/
def truthyOpt : Option String → Bool
  | none => false
  | some s => s ≠ ""

/-- Embeds process_linkedin_profile (lines 337 to 403).  The value is an
exception escaping the pipeline or a finished result record.  The message
texts built at lines 374 to 381 are the personalizeText applications of
the two templates; since the modelled send outcomes are fixed by the
environment and the texts are not recorded in the result, they do not
appear below, and personalizeText is verified separately. -/
def process_linkedin_profile (env : DirEnv) (linkedin_url : String)
    (message_template connection_template : String) (personalize : Bool) :
    Except PyExn OutreachResult :=
  match extract_linkedin_username linkedin_url with
  | none =>
    .ok { url := linkedin_url, status := some "Failed",
          error := some ("Could not extract username from URL: " ++ linkedin_url) }
  | some username =>
    match get_user_provider_id env.resolveResp with
    | .error e => .error e
    | .ok (provider_id, err) =>
      if truthyOpt err then
        .ok { url := linkedin_url, username := some username,
              error := err, status := some "Failed" }
      else
        if (send_message env.msgResp).1 then
          .ok { url := linkedin_url, username := some username,
                job_title :=
                  if personalize then some (extract_job_title env.jobResp) else none,
                provider_id := provider_id,
                action := some "Message", status := some "Success" }
        else
          if (send_connection_request env.invResp).1 then
            .ok { url := linkedin_url, username := some username,
                  job_title :=
                    if personalize then some (extract_job_title env.jobResp) else none,
                  provider_id := provider_id,
                  action := some "Connection Request", status := some "Success" }
          else
            .ok { url := linkedin_url, username := some username,
                  job_title :=
                    if personalize then some (extract_job_title env.jobResp) else none,
                  provider_id := provider_id,
                  action := some "Connection Request", status := some "Failed",
                  error := some (send_connection_request env.invResp).2 }

/-- The job title is unavailable in a directory response when the lookup
fails, the body is unparseable or not a dict, or the dict has an empty or
absent headline and no title on the first experience entry. -/
def jobUnavailable : HttpResult → Bool
  | .netError _ => true
  | .response st _ json =>
    raisesStatus st ||
      match json with
      | none => true
      | some .notDict => true
      | some (.dict _ headline experience) =>
        headline == "" &&
          (match experience with
           | some _ :: _ => false
           | _ => true)

/-- Fixture: a directory run where every call succeeds, the profile
resolves to p1, and the job lookup has headline CTO. -/
def okDirEnv : DirEnv :=
  { resolveResp := .response 200 "" (some (.dict (some "p1") "CTO" [])),
    jobResp := .response 200 "" (some (.dict none "CTO" [])),
    msgResp := .response 200 "",
    invResp := .response 200 "" }

/-- Fixture: the direct message is rejected with a 403 and the invite
succeeds. -/
def fbDirEnv : DirEnv :=
  { resolveResp := .response 200 "" (some (.dict (some "p1") "CTO" [])),
    jobResp := .response 200 "" (some (.dict none "CTO" [])),
    msgResp := .response 403 "forbidden",
    invResp := .response 200 "" }

/-- Fixture: the resolve call returns a well-formed HTTP 200 response whose
JSON body is an array rather than an object. -/
def badDirEnv : DirEnv :=
  { resolveResp := .response 200 "[1, 2]" (some .notDict),
    jobResp := .response 200 "" (some (.dict none "CTO" [])),
    msgResp := .response 200 "",
    invResp := .response 200 "" }

/-- Fixture: the resolve call raises a request exception whose str form is
the empty string; every later call succeeds. -/
def emptyErrDirEnv : DirEnv :=
  { resolveResp := .netError "",
    jobResp := .response 200 "" (some (.dict none "CTO" [])),
    msgResp := .response 200 "",
    invResp := .response 200 "" }

/-- Embeds the batch loop of main (lines 603 to 611): profiles processed in
order with no exception handling, so an uncaught exception aborts the rest
of the batch. -/
def runBatch (mt ct : String) (p : Bool) :
    List (DirEnv × String) → Except PyExn (List OutreachResult)
  | [] => .ok []
  | (env, url) :: rest =>
    match process_linkedin_profile env url mt ct p with
    | .error e => .error e
    | .ok r =>
      match runBatch mt ct p rest with
      | .error e => .error e
      | .ok rs => .ok (r :: rs)


/- ===== Lemmas about the Discovery Engine loops ===== -/

theorem urlLoopT_nodup (cap i n : Nat) :
    ∀ (urls : List String) (j : Nat) (acc : List String), acc.Nodup →
      ((urlLoopT cap i n j acc urls).1).Nodup := by
  intro urls
  induction urls with
  | nil => intro j acc h; simpa [urlLoopT] using h
  | cons url rest ih =>
    intro j acc h
    simp only [urlLoopT]
    cases hf : findProfileUrl url with
    | none => exact ih (j + 1) acc h
    | some p =>
      by_cases hp : p ∈ acc
      · simp only [if_pos hp]
        exact ih (j + 1) acc h
      · simp only [if_neg hp]
        by_cases hc : cap ≤ acc.length + 1
        · simp only [if_pos hc]
          simpa [List.nodup_append] using ⟨h, hp⟩
        · simp only [if_neg hc]
          exact ih (j + 1) (acc ++ [p]) (by simpa [List.nodup_append] using ⟨h, hp⟩)

theorem urlLoopB_nodup (cap n : Nat) :
    ∀ (urls : List String) (j : Nat) (acc : List String), acc.Nodup →
      ((urlLoopB cap n j acc urls).1).Nodup := by
  intro urls
  induction urls with
  | nil => intro j acc h; simpa [urlLoopB] using h
  | cons url rest ih =>
    intro j acc h
    simp only [urlLoopB]
    cases hf : findProfileUrl url with
    | none => exact ih (j + 1) acc h
    | some p =>
      by_cases hp : p ∈ acc
      · simp only [if_pos hp]
        exact ih (j + 1) acc h
      · simp only [if_neg hp]
        by_cases hc : cap ≤ acc.length + 1
        · simp only [if_pos hc]
          simpa [List.nodup_append] using ⟨h, hp⟩
        · simp only [if_neg hc]
          exact ih (j + 1) (acc ++ [p]) (by simpa [List.nodup_append] using ⟨h, hp⟩)

theorem queryLoopT_nodup (env : SearchEnv) (cap : Nat) :
    ∀ (qs : List String) (i : Nat) (acc : List String), acc.Nodup →
      ((queryLoopT env cap i acc qs).1).Nodup := by
  intro qs
  induction qs with
  | nil => intro i acc h; simpa [queryLoopT] using h
  | cons q rest ih =>
    intro i acc h
    simp only [queryLoopT]
    cases hq : env q with
    | error e => exact ih (i + 1) acc h
    | ok urls =>
      by_cases hu : (urlLoopT cap i urls.length 0 acc urls).2.2
      · simp only [if_pos hu]
        exact urlLoopT_nodup cap i urls.length urls 0 acc h
      · simp only [if_neg hu]
        exact ih (i + 1) _ (urlLoopT_nodup cap i urls.length urls 0 acc h)

theorem urlLoopT_len (cap i n : Nat) :
    ∀ (urls : List String) (j : Nat) (acc : List String), acc.length < cap →
      ((urlLoopT cap i n j acc urls).1).length ≤ cap ∧
        ((urlLoopT cap i n j acc urls).2.2 = false →
          ((urlLoopT cap i n j acc urls).1).length < cap) := by
  intro urls
  induction urls with
  | nil => intro j acc h; simp [urlLoopT]; omega
  | cons url rest ih =>
    intro j acc h
    simp only [urlLoopT]
    cases hf : findProfileUrl url with
    | none => exact ih (j + 1) acc h
    | some p =>
      by_cases hp : p ∈ acc
      · simp only [if_pos hp]
        exact ih (j + 1) acc h
      · simp only [if_neg hp]
        by_cases hc : cap ≤ acc.length + 1
        · simp only [if_pos hc]
          constructor
          · simpa using by omega
          · intro hfalse; simp at hfalse
        · simp only [if_neg hc]
          exact ih (j + 1) (acc ++ [p]) (by simp; omega)

theorem urlLoopB_len (cap n : Nat) :
    ∀ (urls : List String) (j : Nat) (acc : List String), acc.length < cap →
      ((urlLoopB cap n j acc urls).1).length ≤ cap := by
  intro urls
  induction urls with
  | nil => intro j acc h; simp [urlLoopB]; omega
  | cons url rest ih =>
    intro j acc h
    simp only [urlLoopB]
    cases hf : findProfileUrl url with
    | none => exact ih (j + 1) acc h
    | some p =>
      by_cases hp : p ∈ acc
      · simp only [if_pos hp]
        exact ih (j + 1) acc h
      · simp only [if_neg hp]
        by_cases hc : cap ≤ acc.length + 1
        · simp only [if_pos hc]
          simpa using by omega
        · simp only [if_neg hc]
          exact ih (j + 1) (acc ++ [p]) (by simp; omega)

theorem queryLoopT_len (env : SearchEnv) (cap : Nat) :
    ∀ (qs : List String) (i : Nat) (acc : List String), acc.length < cap →
      ((queryLoopT env cap i acc qs).1).length ≤ cap ∧
        ((queryLoopT env cap i acc qs).2.2 = false →
          ((queryLoopT env cap i acc qs).1).length < cap) := by
  intro qs
  induction qs with
  | nil => intro i acc h; simp [queryLoopT]; omega
  | cons q rest ih =>
    intro i acc h
    simp only [queryLoopT]
    cases hq : env q with
    | error e => exact ih (i + 1) acc h
    | ok urls =>
      by_cases hu : (urlLoopT cap i urls.length 0 acc urls).2.2
      · simp only [if_pos hu]
        refine ⟨(urlLoopT_len cap i urls.length urls 0 acc h).1, ?_⟩
        intro hfalse; simp at hfalse
      · simp only [if_neg hu]
        have hlt := (urlLoopT_len cap i urls.length urls 0 acc h).2 (by simpa using hu)
        exact ih (i + 1) _ hlt

theorem queryLoopT_congr (env env' : SearchEnv) (cap : Nat) :
    ∀ (qs : List String) (i : Nat) (acc : List String),
      (∀ q ∈ qs, env q = env' q) →
      queryLoopT env cap i acc qs = queryLoopT env' cap i acc qs := by
  intro qs
  induction qs with
  | nil => intro i acc _; rfl
  | cons q rest ih =>
    intro i acc hagree
    have hq : env q = env' q := hagree q (by simp)
    have hrest : ∀ q' ∈ rest, env q' = env' q' := fun q' hq' => hagree q' (by simp [hq'])
    simp only [queryLoopT, ← hq]
    cases env q with
    | error e => rw [ih (i + 1) acc hrest]
    | ok urls =>
      by_cases hu : (urlLoopT cap i urls.length 0 acc urls).2.2
      · simp [hu]
      · simp only [if_neg hu]
        rw [ih (i + 1) _ hrest]

theorem urlLoopT_append_of_capped (cap i n : Nat) :
    ∀ (urls extra : List String) (j : Nat) (acc : List String),
      (urlLoopT cap i n j acc urls).2.2 = true →
      urlLoopT cap i n j acc (urls ++ extra) = urlLoopT cap i n j acc urls := by
  intro urls
  induction urls with
  | nil => intro extra j acc h; simp [urlLoopT] at h
  | cons url rest ih =>
    intro extra j acc h
    have hca : (url :: rest) ++ extra = url :: (rest ++ extra) := rfl
    rw [hca]
    simp only [urlLoopT] at h ⊢
    cases hf : findProfileUrl url with
    | none =>
      simp only [hf] at h ⊢
      rw [ih extra (j + 1) acc h]
    | some p =>
      simp only [hf] at h ⊢
      by_cases hp : p ∈ acc
      · simp only [if_pos hp] at h ⊢
        rw [ih extra (j + 1) acc h]
      · simp only [if_neg hp] at h ⊢
        by_cases hc : cap ≤ acc.length + 1
        · simp only [if_pos hc]
        · simp only [if_neg hc] at h ⊢
          rw [ih extra (j + 1) (acc ++ [p]) h]

theorem queryLoopT_err_skip (env env' : SearchEnv) (cap : Nat)
    (hrel : ∀ q, env q = env' q ∨ (∃ e, env q = .error e ∧ env' q = .ok [])) :
    ∀ (qs : List String) (i : Nat) (acc : List String),
      queryLoopT env cap i acc qs = queryLoopT env' cap i acc qs := by
  intro qs
  induction qs with
  | nil => intro i acc; rfl
  | cons q rest ih =>
    intro i acc
    rcases hrel q with hq | ⟨e, hq, hq'⟩
    · simp only [queryLoopT, ← hq]
      cases env q with
      | error e => rw [ih (i + 1) acc]
      | ok urls =>
        by_cases hu : (urlLoopT cap i urls.length 0 acc urls).2.2
        · simp [hu]
        · simp only [if_neg hu]
          rw [ih (i + 1) _]
    · simp only [queryLoopT, hq, hq', urlLoopT]
      rw [ih (i + 1) acc]
      simp

/-- All-error environments leave the targeted accumulator unchanged and
never report the cap as reached. -/
theorem queryLoopT_all_err (env : SearchEnv) (cap : Nat)
    (herr : ∀ q, ∃ e, env q = .error e) :
    ∀ (qs : List String) (i : Nat) (acc : List String),
      (queryLoopT env cap i acc qs).1 = acc ∧
        (queryLoopT env cap i acc qs).2.2 = false := by
  intro qs
  induction qs with
  | nil => intro i acc; simp [queryLoopT]
  | cons q rest ih =>
    intro i acc
    obtain ⟨e, hq⟩ := herr q
    simp only [queryLoopT, hq]
    exact ih (i + 1) acc

theorem urlLoopT_prog_range (cap i n : Nat) :
    ∀ (urls : List String) (j : Nat) (acc : List String) (p : ℚ),
      p ∈ (urlLoopT cap i n j acc urls).2.1 → 0 ≤ p ∧ p ≤ 1 := by
  intro urls
  induction urls with
  | nil => intro j acc p hp; simp [urlLoopT] at hp
  | cons url rest ih =>
    intro j acc p hp
    have hsub : (0:ℚ) ≤ min (1/2 + ((i : ℚ) + ((j : ℚ) + 1) / (n : ℚ)) / 3 * (1/2)) (9/10) ∧
        min (1/2 + ((i : ℚ) + ((j : ℚ) + 1) / (n : ℚ)) / 3 * (1/2)) (9/10) ≤ 1 := by
      constructor
      · apply le_min
        · positivity
        · norm_num
      · exact le_trans (min_le_right _ _) (by norm_num)
    simp only [urlLoopT] at hp
    cases hf : findProfileUrl url with
    | none =>
      simp only [hf] at hp
      rcases List.mem_cons.mp hp with rfl | hmem
      · exact hsub
      · exact ih (j + 1) acc p hmem
    | some q =>
      simp only [hf] at hp
      by_cases hq : q ∈ acc
      · simp only [if_pos hq] at hp
        rcases List.mem_cons.mp hp with rfl | hmem
        · exact hsub
        · exact ih (j + 1) acc p hmem
      · simp only [if_neg hq] at hp
        by_cases hc : cap ≤ acc.length + 1
        · simp only [if_pos hc] at hp
          rcases List.mem_cons.mp hp with rfl | hmem
          · norm_num
          · simp at hmem
        · simp only [if_neg hc] at hp
          rcases List.mem_cons.mp hp with rfl | hmem
          · exact hsub
          · exact ih (j + 1) (acc ++ [q]) p hmem

theorem urlLoopB_prog_range (cap n : Nat) :
    ∀ (urls : List String) (j : Nat) (acc : List String) (p : ℚ),
      p ∈ (urlLoopB cap n j acc urls).2 → 0 ≤ p ∧ p ≤ 1 := by
  intro urls
  induction urls with
  | nil => intro j acc p hp; simp [urlLoopB] at hp
  | cons url rest ih =>
    intro j acc p hp
    have hsub : (0:ℚ) ≤ min (9/10 + ((j : ℚ) + 1) / (n : ℚ) * (1/10)) (99/100) ∧
        min (9/10 + ((j : ℚ) + 1) / (n : ℚ) * (1/10)) (99/100) ≤ 1 := by
      constructor
      · apply le_min
        · positivity
        · norm_num
      · exact le_trans (min_le_right _ _) (by norm_num)
    simp only [urlLoopB] at hp
    cases hf : findProfileUrl url with
    | none =>
      simp only [hf] at hp
      rcases List.mem_cons.mp hp with rfl | hmem
      · exact hsub
      · exact ih (j + 1) acc p hmem
    | some q =>
      simp only [hf] at hp
      by_cases hq : q ∈ acc
      · simp only [if_pos hq] at hp
        rcases List.mem_cons.mp hp with rfl | hmem
        · exact hsub
        · exact ih (j + 1) acc p hmem
      · simp only [if_neg hq] at hp
        by_cases hc : cap ≤ acc.length + 1
        · simp only [if_pos hc] at hp
          simp at hp
        · simp only [if_neg hc] at hp
          rcases List.mem_cons.mp hp with rfl | hmem
          · exact hsub
          · exact ih (j + 1) (acc ++ [q]) p hmem

theorem queryLoopT_prog_range (env : SearchEnv) (cap : Nat) :
    ∀ (qs : List String) (i : Nat) (acc : List String) (p : ℚ),
      i + qs.length ≤ 3 →
      p ∈ (queryLoopT env cap i acc qs).2.1 → 0 ≤ p ∧ p ≤ 1 := by
  intro qs
  induction qs with
  | nil => intro i acc p _ hp; simp [queryLoopT] at hp
  | cons q rest ih =>
    intro i acc p hi hp
    have hstart : (0:ℚ) ≤ (i : ℚ) / 3 * (1/2) ∧ (i : ℚ) / 3 * (1/2) ≤ 1 := by
      have hi3 : (i : ℚ) ≤ 3 := by
        have : i ≤ 3 := by simp at hi; omega
        exact_mod_cast this
      constructor
      · positivity
      · nlinarith
    simp only [queryLoopT] at hp
    cases hq : env q with
    | error e =>
      simp only [hq] at hp
      rcases List.mem_cons.mp hp with rfl | hmem
      · exact hstart
      · exact ih (i + 1) acc p (by simp at hi ⊢; omega) hmem
    | ok urls =>
      simp only [hq] at hp
      by_cases hu : (urlLoopT cap i urls.length 0 acc urls).2.2
      · simp only [if_pos hu] at hp
        rcases List.mem_cons.mp hp with rfl | hmem
        · exact hstart
        · exact urlLoopT_prog_range cap i urls.length urls 0 acc p hmem
      · simp only [if_neg hu] at hp
        rcases List.mem_cons.mp hp with rfl | hmem
        · exact hstart
        · rcases List.mem_append.mp hmem with hmem' | hmem'
          · exact urlLoopT_prog_range cap i urls.length urls 0 acc p hmem'
          · exact ih (i + 1) _ p (by simp at hi ⊢; omega) hmem'

/- ===== Claim theorems for the Discovery Engine ===== -/

/-- C1 counterexample: deduplication is not keyed on the username.  Two
result URLs that differ only in protocol share the username bob, yet both
appear in the returned sequence, so the usernames of the output are not
pairwise distinct. -/
theorem C1_counterexample :
    search_linkedin_profiles
        (fun _ => .ok ["http://linkedin.com/in/bob", "https://linkedin.com/in/bob"])
        "k" "d" 10
      = ["http://linkedin.com/in/bob", "https://linkedin.com/in/bob"]
    ∧ extract_linkedin_username "http://linkedin.com/in/bob" = some "bob"
    ∧ extract_linkedin_username "https://linkedin.com/in/bob" = some "bob"
    ∧ ¬ (List.map extract_linkedin_username
          (search_linkedin_profiles
            (fun _ => .ok ["http://linkedin.com/in/bob", "https://linkedin.com/in/bob"])
            "k" "d" 10)).Nodup := by
  exact ⟨by decide, by decide, by decide, by decide⟩

/-- C1 amended: deduplication is keyed on the exact matched profile-URL
string of the regex capture, which strips at most one trailing slash.  The
returned sequence never contains the same matched URL string twice, but
result URLs differing in protocol or query string can share a username and
then each contributes a handle. -/
theorem C1_theorem (env : SearchEnv) (kw desc : String) (num : Nat) :
    (search_linkedin_profiles env kw desc num).Nodup := by
  have ht : ((queryLoopT env num 0 [] (targetedQueries kw desc)).1).Nodup :=
    queryLoopT_nodup env num (targetedQueries kw desc) 0 [] (by simp)
  unfold search_linkedin_profiles searchWithProgress
  by_cases h1 : (queryLoopT env num 0 [] (targetedQueries kw desc)).2.2
  · simpa [h1] using ht
  · simp only [h1, Bool.false_eq_true, if_false]
    by_cases h2 : (queryLoopT env num 0 [] (targetedQueries kw desc)).1.length < num
    · simp only [h2, if_true]
      cases hb : env (broadQuery kw) with
      | error e => simpa using ht
      | ok urls =>
        simpa using urlLoopB_nodup num urls.length urls 0 _ ht
    · simpa [h2] using ht

/-- C6: for a positive cap the Discovery Engine returns at most num
handles; when the cap is reached inside the targeted phase the output does
not depend on the broadening query, and a URL loop that reached the cap
ignores any URLs appended after the point where it stopped. -/
theorem C6_theorem (env : SearchEnv) (kw desc : String) (num : Nat)
    (h : 1 ≤ num) :
    (search_linkedin_profiles env kw desc num).length ≤ num
    ∧ (∀ env' : SearchEnv,
        (queryLoopT env num 0 [] (targetedQueries kw desc)).2.2 = true →
        (∀ q ∈ targetedQueries kw desc, env q = env' q) →
        search_linkedin_profiles env kw desc num
          = search_linkedin_profiles env' kw desc num)
    ∧ (∀ (i n j : Nat) (acc urls extra : List String),
        (urlLoopT num i n j acc urls).2.2 = true →
        urlLoopT num i n j acc (urls ++ extra) = urlLoopT num i n j acc urls) := by
  refine ⟨?_, ?_, ?_⟩
  · have hlen := queryLoopT_len env num (targetedQueries kw desc) 0 []
      (by simpa using h)
    unfold search_linkedin_profiles searchWithProgress
    by_cases h1 : (queryLoopT env num 0 [] (targetedQueries kw desc)).2.2
    · simpa [h1] using hlen.1
    · simp only [h1, Bool.false_eq_true, if_false]
      have hlt := hlen.2 (by simpa using h1)
      by_cases h2 : (queryLoopT env num 0 [] (targetedQueries kw desc)).1.length < num
      · simp only [h2, if_true]
        cases hb : env (broadQuery kw) with
        | error e => simpa using hlen.1
        | ok urls =>
          simpa using urlLoopB_len num urls.length urls 0 _ hlt
      · simpa [h2] using hlen.1
  · intro env' hfull hagree
    have hcongr := queryLoopT_congr env env' num (targetedQueries kw desc) 0 [] hagree
    unfold search_linkedin_profiles searchWithProgress
    rw [← hcongr]
    simp [hfull]
  · intro i n j acc urls extra hcap
    exact urlLoopT_append_of_capped num i n urls extra j acc hcap

/-- C6 witness: with one query result and cap one, the engine returns at
most one handle. -/
theorem C6_witness :
    (search_linkedin_profiles (fun _ => .ok ["https://linkedin.com/in/bob"])
      "k" "d" 1).length ≤ 1 :=
  (C6_theorem (fun _ => .ok ["https://linkedin.com/in/bob"]) "k" "d" 1
    (by decide)).1

/-- C7 counterexample: the reported progress fractions are not
monotonically non-decreasing.  With every query returning one non-profile
URL, the first query reports two thirds inside its URL loop and the second
query then reports one sixth at its start. -/
theorem C7_counterexample :
    ¬ List.Chain' (· ≤ ·)
        (searchWithProgress (fun _ => .ok ["x"]) "k" "d" 10).2 := by
  have hx : findProfileUrl "x" = none := by decide
  have hps : (searchWithProgress (fun _ => .ok ["x"]) "k" "d" 10).2
      = [0, 0, 2/3, 1/6, 5/6, 1/3, 9/10, 99/100, 1] := by
    simp [searchWithProgress, queryLoopT, urlLoopT, urlLoopB, targetedQueries,
      broadQuery, hx]
    norm_num
  rw [hps]
  simp only [List.chain'_cons, List.chain'_singleton]
  norm_num

/-- C7 amended: every value the Discovery Engine reports through the
progress side channel lies between zero and one, but the sequence of
reported values is not monotonically non-decreasing: a start-of-query
report of at most one third can follow per-URL reports of at least one
half from the previous query. -/
theorem C7_theorem (env : SearchEnv) (kw desc : String) (num : Nat) (p : ℚ)
    (hp : p ∈ (searchWithProgress env kw desc num).2) : 0 ≤ p ∧ p ≤ 1 := by
  unfold searchWithProgress at hp
  by_cases h1 : (queryLoopT env num 0 [] (targetedQueries kw desc)).2.2
  · simp only [h1, if_true] at hp
    rcases List.mem_cons.mp hp with rfl | hmem
    · norm_num
    · exact queryLoopT_prog_range env num (targetedQueries kw desc) 0 [] p
        (by simp [targetedQueries]) hmem
  · simp only [h1, Bool.false_eq_true, if_false] at hp
    by_cases h2 : (queryLoopT env num 0 [] (targetedQueries kw desc)).1.length < num
    · simp only [h2, if_true] at hp
      cases hb : env (broadQuery kw) with
      | error e =>
        simp only [hb] at hp
        rcases List.mem_cons.mp hp with rfl | hmem
        · norm_num
        · rcases List.mem_append.mp hmem with hmem' | hmem'
          · exact queryLoopT_prog_range env num (targetedQueries kw desc) 0 [] p
              (by simp [targetedQueries]) hmem'
          · simp at hmem'; rw [hmem']; norm_num
      | ok urls =>
        simp only [hb] at hp
        rcases List.mem_cons.mp hp with rfl | hmem
        · norm_num
        · rcases List.mem_append.mp hmem with hmem' | hmem'
          · rcases List.mem_append.mp hmem' with hmem'' | hmem''
            · exact queryLoopT_prog_range env num (targetedQueries kw desc) 0 [] p
                (by simp [targetedQueries]) hmem''
            · exact urlLoopB_prog_range num urls.length urls 0 _ p hmem''
          · simp at hmem'; rw [hmem']; norm_num
    · simp only [h2, if_false] at hp
      rcases List.mem_cons.mp hp with rfl | hmem
      · norm_num
      · rcases List.mem_append.mp hmem with hmem' | hmem'
        · exact queryLoopT_prog_range env num (targetedQueries kw desc) 0 [] p
            (by simp [targetedQueries]) hmem'
        · simp at hmem'; rw [hmem']; norm_num

/-- C7 witness: the initial report of the run is in range. -/
theorem C7_witness :
    (0:ℚ) ∈ (searchWithProgress (fun _ => .error "x") "k" "d" 1).2
    ∧ (0:ℚ) ≤ 0 ∧ (0:ℚ) ≤ 1 := by
  refine ⟨by decide, ?_⟩
  have h := C7_theorem (fun _ => .error "x") "k" "d" 1 0 (by decide)
  exact ⟨h.1, h.2⟩

/-- C8: a failing query behaves exactly like a query returning no URLs, so
the engine proceeds with the rest of the plan, and when every query fails
the engine returns the empty sequence rather than an error. -/
theorem C8_theorem (env env' : SearchEnv) (kw desc : String) (num : Nat)
    (hrel : ∀ q, env q = env' q ∨ (∃ e, env q = .error e ∧ env' q = .ok [])) :
    searchWithProgress env kw desc num = searchWithProgress env' kw desc num
    ∧ ((∀ q, ∃ e, env q = .error e) →
        search_linkedin_profiles env kw desc num = []) := by
  constructor
  · have hq := queryLoopT_err_skip env env' num hrel (targetedQueries kw desc) 0 []
    unfold searchWithProgress
    rw [← hq]
    by_cases h1 : (queryLoopT env num 0 [] (targetedQueries kw desc)).2.2
    · simp [h1]
    · simp only [h1, Bool.false_eq_true, if_false]
      by_cases h2 : (queryLoopT env num 0 [] (targetedQueries kw desc)).1.length < num
      · simp only [h2, if_true]
        rcases hrel (broadQuery kw) with hb | ⟨e, hb, hb'⟩
        · rw [← hb]
        · rw [hb, hb']
          simp [urlLoopB]
      · simp [h2]
  · intro herr
    obtain ⟨e, hb⟩ := herr (broadQuery kw)
    have hall := queryLoopT_all_err env num herr (targetedQueries kw desc) 0 []
    unfold search_linkedin_profiles searchWithProgress
    by_cases h2 : 0 < num
    · simp [hall.1, hall.2, hb, h2]
    · simp [hall.1, hall.2, h2]

/-- C8 witness: with every query failing, the engine returns the empty
sequence. -/
theorem C8_witness :
    search_linkedin_profiles (fun _ => .error "boom") "k" "d" 5 = [] :=
  (C8_theorem (fun _ => .error "boom") (fun _ => .ok []) "k" "d" 5
    (fun _ => Or.inr ⟨"boom", rfl, rfl⟩)).2 (fun _ => ⟨"boom", rfl⟩)

/- ===== Lemmas about the replacement passes ===== -/

theorem eq_append_drop :
    ∀ (p l : List Char), p.isPrefixOf l = true → l = p ++ l.drop p.length := by
  intro p
  induction p with
  | nil => intro l _; rfl
  | cons a p' ih =>
    intro l h
    cases l with
    | nil => simp [List.isPrefixOf] at h
    | cons b l' =>
      simp only [List.isPrefixOf, Bool.and_eq_true, beq_iff_eq] at h
      obtain ⟨rfl, h2⟩ := h
      simpa using ih l' h2

theorem namePh_not_pre (c : Char) (rest : List Char) (h : c ≠ '\x7b') :
    namePh.isPrefixOf (c :: rest) = false := by
  simp [namePh, List.isPrefixOf]
  intro hc
  exact absurd hc.symm h

theorem jobPh_not_pre (c : Char) (rest : List Char) (h : c ≠ '\x7b') :
    jobPh.isPrefixOf (c :: rest) = false := by
  simp [jobPh, List.isPrefixOf]
  intro hc
  exact absurd hc.symm h

theorem namePh_not_pre_jobTail (X : List Char) :
    namePh.isPrefixOf ('\x7b' :: (jobTail ++ X)) = false := rfl

theorem isPrefixOf_append_self : ∀ (p X : List Char), p.isPrefixOf (p ++ X) = true := by
  intro p
  induction p with
  | nil => intro X; cases X <;> rfl
  | cons a p2 ih => intro X; simp [List.isPrefixOf, ih X]

theorem replNameF_irrel (nm : List Char) :
    ∀ (k k2 : Nat) (s : List Char), s.length ≤ k → s.length ≤ k2 →
      replNameF nm k s = replNameF nm k2 s := by
  intro k
  induction k with
  | zero =>
    intro k2 s h _
    have hs : s = [] := by cases s with | nil => rfl | cons a t => simp at h
    subst hs
    cases k2 <;> rfl
  | succ k ih =>
    intro k2 s hk hk2
    cases s with
    | nil => cases k2 <;> rfl
    | cons c rest =>
      cases k2 with
      | zero => simp at hk2
      | succ k3 =>
        simp only [replNameF]
        by_cases hp : namePh.isPrefixOf (c :: rest)
        · simp only [if_pos hp]
          rw [ih k3 (rest.drop 5) (by simp at hk ⊢; omega) (by simp at hk2 ⊢; omega)]
        · simp only [if_neg hp]
          rw [ih k3 rest (by simp at hk; omega) (by simp at hk2; omega)]

theorem replJobF_irrel (jt : List Char) :
    ∀ (k k2 : Nat) (s : List Char), s.length ≤ k → s.length ≤ k2 →
      replJobF jt k s = replJobF jt k2 s := by
  intro k
  induction k with
  | zero =>
    intro k2 s h _
    have hs : s = [] := by cases s with | nil => rfl | cons a t => simp at h
    subst hs
    cases k2 <;> rfl
  | succ k ih =>
    intro k2 s hk hk2
    cases s with
    | nil => cases k2 <;> rfl
    | cons c rest =>
      cases k2 with
      | zero => simp at hk2
      | succ k3 =>
        simp only [replJobF]
        by_cases hp : jobPh.isPrefixOf (c :: rest)
        · simp only [if_pos hp]
          rw [ih k3 (rest.drop 10) (by simp at hk ⊢; omega) (by simp at hk2 ⊢; omega)]
        · simp only [if_neg hp]
          rw [ih k3 rest (by simp at hk; omega) (by simp at hk2; omega)]

theorem simultSubstF_irrel (nm jt : List Char) :
    ∀ (k k2 : Nat) (s : List Char), s.length ≤ k → s.length ≤ k2 →
      simultSubstF nm jt k s = simultSubstF nm jt k2 s := by
  intro k
  induction k with
  | zero =>
    intro k2 s h _
    have hs : s = [] := by cases s with | nil => rfl | cons a t => simp at h
    subst hs
    cases k2 <;> rfl
  | succ k ih =>
    intro k2 s hk hk2
    cases s with
    | nil => cases k2 <;> rfl
    | cons c rest =>
      cases k2 with
      | zero => simp at hk2
      | succ k3 =>
        simp only [simultSubstF]
        by_cases hp : namePh.isPrefixOf (c :: rest)
        · simp only [if_pos hp]
          rw [ih k3 (rest.drop 5) (by simp at hk ⊢; omega) (by simp at hk2 ⊢; omega)]
        · simp only [if_neg hp]
          by_cases hq : jobPh.isPrefixOf (c :: rest)
          · simp only [if_pos hq]
            rw [ih k3 (rest.drop 10) (by simp at hk ⊢; omega) (by simp at hk2 ⊢; omega)]
          · simp only [if_neg hq]
            rw [ih k3 rest (by simp at hk; omega) (by simp at hk2; omega)]

theorem replName_cons (nm : List Char) (c : Char) (rest : List Char) :
    replName nm (c :: rest)
      = if namePh.isPrefixOf (c :: rest) then nm ++ replName nm (rest.drop 5)
        else c :: replName nm rest := by
  show replNameF nm (rest.length + 1) (c :: rest) = _
  simp only [replNameF]
  by_cases hp : namePh.isPrefixOf (c :: rest)
  · simp only [if_pos hp]
    rw [replNameF_irrel nm rest.length (rest.drop 5).length (rest.drop 5)
      (by simp) le_rfl]
    rfl
  · simp only [if_neg hp]
    rfl

theorem replJob_cons (jt : List Char) (c : Char) (rest : List Char) :
    replJob jt (c :: rest)
      = if jobPh.isPrefixOf (c :: rest) then jt ++ replJob jt (rest.drop 10)
        else c :: replJob jt rest := by
  show replJobF jt (rest.length + 1) (c :: rest) = _
  simp only [replJobF]
  by_cases hp : jobPh.isPrefixOf (c :: rest)
  · simp only [if_pos hp]
    rw [replJobF_irrel jt rest.length (rest.drop 10).length (rest.drop 10)
      (by simp) le_rfl]
    rfl
  · simp only [if_neg hp]
    rfl

theorem simultSubst_cons (nm jt : List Char) (c : Char) (rest : List Char) :
    simultSubst nm jt (c :: rest)
      = if namePh.isPrefixOf (c :: rest) then nm ++ simultSubst nm jt (rest.drop 5)
        else if jobPh.isPrefixOf (c :: rest) then jt ++ simultSubst nm jt (rest.drop 10)
        else c :: simultSubst nm jt rest := by
  show simultSubstF nm jt (rest.length + 1) (c :: rest) = _
  simp only [simultSubstF]
  by_cases hp : namePh.isPrefixOf (c :: rest)
  · simp only [if_pos hp]
    rw [simultSubstF_irrel nm jt rest.length (rest.drop 5).length (rest.drop 5)
      (by simp) le_rfl]
    rfl
  · simp only [if_neg hp]
    by_cases hq : jobPh.isPrefixOf (c :: rest)
    · simp only [if_pos hq]
      rw [simultSubstF_irrel nm jt rest.length (rest.drop 10).length (rest.drop 10)
        (by simp) le_rfl]
      rfl
    · simp only [if_neg hq]
      rfl

/-- A brace-free segment passes through the job pass unchanged. -/
theorem replJob_seg (jt : List Char) :
    ∀ (seg X : List Char), (∀ c ∈ seg, c ≠ '\x7b') →
      replJob jt (seg ++ X) = seg ++ replJob jt X := by
  intro seg
  induction seg with
  | nil => intro X _; rfl
  | cons c seg2 ih =>
    intro X h
    have hc : c ≠ '\x7b' := h c (by simp)
    rw [List.cons_append, replJob_cons, if_neg (by simp [jobPh_not_pre _ _ hc]),
      ih X (fun d hd => h d (by simp [hd])), List.cons_append]

/-- A brace-free segment passes through the name pass unchanged. -/
theorem replName_seg (nm : List Char) :
    ∀ (seg X : List Char), (∀ c ∈ seg, c ≠ '\x7b') →
      replName nm (seg ++ X) = seg ++ replName nm X := by
  intro seg
  induction seg with
  | nil => intro X _; rfl
  | cons c seg2 ih =>
    intro X h
    have hc : c ≠ '\x7b' := h c (by simp)
    rw [List.cons_append, replName_cons, if_neg (by simp [namePh_not_pre _ _ hc]),
      ih X (fun d hd => h d (by simp [hd])), List.cons_append]

/-- Without an occurrence of the name placeholder the name pass is the
identity. -/
theorem replName_no_ph (nm : List Char) :
    ∀ t : List Char, hasNamePh t = false → replName nm t = t := by
  intro t
  induction t with
  | nil => intro _; rfl
  | cons c rest ih =>
    intro h
    simp only [hasNamePh, Bool.or_eq_false_iff] at h
    rw [replName_cons, if_neg (by simp [h.1]), ih h.2]

/-- Without an occurrence of the job title placeholder the job pass is the
identity. -/
theorem replJob_no_ph (jt : List Char) :
    ∀ t : List Char, hasJobPh t = false → replJob jt t = t := by
  intro t
  induction t with
  | nil => intro _; rfl
  | cons c rest ih =>
    intro h
    simp only [hasJobPh, Bool.or_eq_false_iff] at h
    rw [replJob_cons, if_neg (by simp [h.1]), ih h.2]

theorem wfTmpl_drop : ∀ (l : List Char) (n : Nat), wfTmpl l = true →
    wfTmpl (l.drop n) = true := by
  intro l
  induction l with
  | nil => intro n h; simp [h]
  | cons c rest ih =>
    intro n h
    cases n with
    | zero => exact h
    | succ n =>
      simp only [wfTmpl, Bool.and_eq_true] at h
      simpa using ih n h.2

/-- On brace-clean templates, running the name pass and then the job pass
equals the simultaneous one-pass substitution, provided the substituted
name contains no left brace. -/
theorem seq_eq_simult (nm jt : List Char) (hnm : ∀ c ∈ nm, c ≠ '\x7b') :
    ∀ (k : Nat) (t : List Char), t.length ≤ k → wfTmpl t = true →
      replJob jt (replName nm t) = simultSubst nm jt t := by
  intro k
  induction k with
  | zero =>
    intro t ht _
    have hs : t = [] := by cases t with | nil => rfl | cons a b => simp at ht
    subst hs
    rfl
  | succ k ih =>
    intro t ht hwf
    cases t with
    | nil => rfl
    | cons c rest =>
      simp only [wfTmpl, Bool.and_eq_true] at hwf
      by_cases hn : namePh.isPrefixOf (c :: rest)
      · rw [replName_cons, if_pos hn, replJob_seg jt nm _ hnm,
          simultSubst_cons, if_pos hn,
          ih (rest.drop 5) (by simp at ht ⊢; omega) (by
            have := wfTmpl_drop rest 5 hwf.2
            simpa using this)]
      · by_cases hj : jobPh.isPrefixOf (c :: rest)
        · have hdecomp := eq_append_drop jobPh (c :: rest) hj
          have hdrop : (c :: rest).drop jobPh.length = rest.drop 10 := rfl
          rw [hdrop] at hdecomp
          have hjp : jobPh ++ rest.drop 10 = '\x7b' :: (jobTail ++ rest.drop 10) := rfl
          rw [hjp] at hdecomp
          injection hdecomp with hc hrest
          subst hc
          obtain ⟨r2, hr2⟩ : ∃ r2, rest.drop 10 = r2 := ⟨_, rfl⟩
          rw [hr2] at hrest
          have hlen : r2.length ≤ k := by
            rw [hrest] at ht
            simp [jobTail] at ht
            omega
          have hwfr2 : wfTmpl r2 = true := by
            have h5 := wfTmpl_drop rest 10 hwf.2
            rw [hr2] at h5
            exact h5
          rw [hrest]
          rw [show replName nm ('\x7b' :: (jobTail ++ r2))
              = '\x7b' :: (jobTail ++ replName nm r2) by
            rw [replName_cons, if_neg (by simp [namePh_not_pre_jobTail]),
              replName_seg nm jobTail r2 (by decide)]]
          have hpre1 : jobPh.isPrefixOf ('\x7b' :: (jobTail ++ replName nm r2)) = true :=
            isPrefixOf_append_self jobPh (replName nm r2)
          rw [show replJob jt ('\x7b' :: (jobTail ++ replName nm r2))
              = jt ++ replJob jt (replName nm r2) by
            rw [replJob_cons, if_pos hpre1,
              show (jobTail ++ replName nm r2).drop 10 = replName nm r2 from rfl]]
          have hpre2 : jobPh.isPrefixOf ('\x7b' :: (jobTail ++ r2)) = true :=
            isPrefixOf_append_self jobPh r2
          rw [show simultSubst nm jt ('\x7b' :: (jobTail ++ r2))
              = jt ++ simultSubst nm jt r2 by
            rw [simultSubst_cons, if_neg (by simp [namePh_not_pre_jobTail]),
              if_pos hpre2,
              show (jobTail ++ r2).drop 10 = r2 from rfl]]
          rw [ih r2 hlen hwfr2]
        · have hc : c ≠ '\x7b' := by
            have h1 := hwf.1
            simp only [Bool.or_eq_true] at h1
            rcases h1 with (h1 | h1) | h1
            · simpa using h1
            · exact absurd h1 hn
            · exact absurd h1 hj
          rw [replName_cons, if_neg hn, replJob_cons,
            if_neg (by simp [jobPh_not_pre _ _ hc]),
            simultSubst_cons, if_neg hn, if_neg hj,
            ih rest (by simp at ht; omega) hwf.2]


/- ===== Claim theorems for the Delivery Pipeline ===== -/

/-- C2: when a profile reaches the send stage, meaning the username was
extracted and a provider id resolved, the result is exactly as the claim
states: message success gives action Message with status Success; message
failure followed by invite success gives action Connection Request with
status Success; and both failing gives action Connection Request, status
Failed, with the error equal to the invite failure text. -/
theorem C2_theorem (env : DirEnv) (url mt ct : String) (pers : Bool)
    (u pid : String)
    (hu : extract_linkedin_username url = some u)
    (hres : get_user_provider_id env.resolveResp = .ok (some pid, none)) :
    ((send_message env.msgResp).1 = true →
      process_linkedin_profile env url mt ct pers
        = .ok { url := url, username := some u,
                job_title :=
                  if pers then some (extract_job_title env.jobResp) else none,
                provider_id := some pid,
                action := some "Message", status := some "Success" })
    ∧ ((send_message env.msgResp).1 = false →
        (send_connection_request env.invResp).1 = true →
        process_linkedin_profile env url mt ct pers
          = .ok { url := url, username := some u,
                  job_title :=
                    if pers then some (extract_job_title env.jobResp) else none,
                  provider_id := some pid,
                  action := some "Connection Request", status := some "Success" })
    ∧ ((send_message env.msgResp).1 = false →
        (send_connection_request env.invResp).1 = false →
        process_linkedin_profile env url mt ct pers
          = .ok { url := url, username := some u,
                  job_title :=
                    if pers then some (extract_job_title env.jobResp) else none,
                  provider_id := some pid,
                  action := some "Connection Request", status := some "Failed",
                  error := some (send_connection_request env.invResp).2 }) := by
  unfold process_linkedin_profile
  rw [hu, hres]
  refine ⟨?_, ?_, ?_⟩
  · intro hm
    simp [truthyOpt, hm]
  · intro hm hc
    simp [truthyOpt, hm, hc]
  · intro hm hc
    simp [truthyOpt, hm, hc]

/-- C2 witness: a run where the message send succeeds ends with action
Message and status Success. -/
theorem C2_witness :
    process_linkedin_profile okDirEnv "https://linkedin.com/in/bob" "t" "c" false
      = .ok { url := "https://linkedin.com/in/bob", username := some "bob",
              job_title := none, provider_id := some "p1",
              action := some "Message", status := some "Success" } :=
  (C2_theorem okDirEnv "https://linkedin.com/in/bob" "t" "c" false "bob" "p1"
    (by decide) (by rfl)).1 (by decide)

/-- C10: a returned result record carries a non-null error exactly when its
status is Failed; in particular on the fallback path, where the message
send fails and the invite succeeds, the message failure reason is
discarded and the error stays null. -/
theorem C10_theorem (env : DirEnv) (url mt ct : String) (pers : Bool)
    (r : OutreachResult)
    (h : process_linkedin_profile env url mt ct pers = .ok r) :
    (r.error ≠ none ↔ r.status = some "Failed")
    ∧ ((send_message env.msgResp).1 = false →
        (send_connection_request env.invResp).1 = true →
        r.action = some "Connection Request" → r.error = none) := by
  unfold process_linkedin_profile at h
  cases hx : extract_linkedin_username url with
  | none =>
    simp only [hx] at h
    injection h with h2
    subst h2
    refine ⟨by simp, ?_⟩
    intro _ _ hact
    simp at hact
  | some u =>
    simp only [hx] at h
    cases hg : get_user_provider_id env.resolveResp with
    | error e => simp only [hg] at h; simp at h
    | ok pe =>
      obtain ⟨pid, err⟩ := pe
      simp only [hg] at h
      by_cases ht : truthyOpt err = true
      · rw [if_pos ht] at h
        injection h with h2
        subst h2
        refine ⟨⟨fun _ => rfl, fun _ => ?_⟩, ?_⟩
        · cases err with
          | none => simp [truthyOpt] at ht
          | some s => simp
        · intro _ _ hact
          simp at hact
      · rw [if_neg ht] at h
        by_cases hm : (send_message env.msgResp).1 = true
        · rw [if_pos hm] at h
          injection h with h2
          subst h2
          exact ⟨by simp, fun _ _ _ => rfl⟩
        · rw [if_neg hm] at h
          by_cases hc : (send_connection_request env.invResp).1 = true
          · rw [if_pos hc] at h
            injection h with h2
            subst h2
            exact ⟨by simp, fun _ _ _ => rfl⟩
          · rw [if_neg hc] at h
            injection h with h2
            subst h2
            refine ⟨by simp, ?_⟩
            intro _ hct _
            exact absurd hct hc

/-- C10 witness: on the fallback path the error field is null. -/
theorem C10_witness :
    (({ url := "https://linkedin.com/in/bob", username := some "bob",
        job_title := none, provider_id := some "p1",
        action := some "Connection Request",
        status := some "Success" } : OutreachResult).error) = none :=
  (C10_theorem fbDirEnv "https://linkedin.com/in/bob" "t" "c" false
    { url := "https://linkedin.com/in/bob", username := some "bob",
      job_title := none, provider_id := some "p1",
      action := some "Connection Request", status := some "Success" }
    (by rfl)).2 (by decide) (by decide) (by decide)

/-- C4 counterexample: a resolution failure whose failure text is the
empty string is falsy, so the pipeline does not stop: with the resolve
call raising an exception whose str form is empty and the message send
succeeding, the result has action Message and status Success even though
no provider id was resolved. -/
theorem C4_counterexample :
    get_user_provider_id emptyErrDirEnv.resolveResp = .ok (none, some "")
    ∧ process_linkedin_profile emptyErrDirEnv
        "https://linkedin.com/in/bob" "t" "c" false
      = .ok { url := "https://linkedin.com/in/bob", username := some "bob",
              job_title := none, provider_id := none,
              action := some "Message", status := some "Success" } := by
  exact ⟨rfl, by rfl⟩

/-- C4 amended: action is None exactly when extraction failed or the
resolver reported a failure with a non-empty failure text; in those cases
the status is Failed and the error carries the extraction failure text or
the resolver reason.  A resolution failure carrying an empty failure text
is treated as success and the pipeline proceeds to the send stage. -/
theorem C4_theorem (env : DirEnv) (url mt ct : String) (pers : Bool)
    (r : OutreachResult)
    (h : process_linkedin_profile env url mt ct pers = .ok r) :
    (r.action = none ↔
      (extract_linkedin_username url = none ∨
        (extract_linkedin_username url ≠ none ∧
          ∃ pid m, get_user_provider_id env.resolveResp = .ok (pid, some m)
            ∧ m ≠ "")))
    ∧ (extract_linkedin_username url = none →
        r.status = some "Failed"
          ∧ r.error = some ("Could not extract username from URL: " ++ url))
    ∧ (∀ pid m, get_user_provider_id env.resolveResp = .ok (pid, some m) →
        m ≠ "" → extract_linkedin_username url ≠ none →
        r.status = some "Failed" ∧ r.error = some m) := by
  unfold process_linkedin_profile at h
  cases hx : extract_linkedin_username url with
  | none =>
    simp only [hx] at h
    injection h with h2
    subst h2
    refine ⟨by simp, by simp, ?_⟩
    intro pid m _ _ hne
    exact absurd rfl hne
  | some u =>
    simp only [hx] at h
    cases hg : get_user_provider_id env.resolveResp with
    | error e => simp only [hg] at h; simp at h
    | ok pe =>
      obtain ⟨pid, err⟩ := pe
      simp only [hg] at h
      by_cases ht : truthyOpt err = true
      · rw [if_pos ht] at h
        injection h with h2
        subst h2
        cases err with
        | none => simp [truthyOpt] at ht
        | some s =>
          have hs : s ≠ "" := by simpa [truthyOpt] using ht
          refine ⟨⟨fun _ => Or.inr ⟨by simp, pid, s, rfl, hs⟩, fun _ => rfl⟩, ?_, ?_⟩
          · intro hcontra
            exact absurd hcontra (by simp)
          · intro pid2 m hg2 hm _
            injection hg2 with h3
            injection h3 with h4 h5
            injection h5 with h6
            exact ⟨rfl, by rw [← h6]⟩
      · have hcontr : ∀ (pid2 : Option String) (m : String),
            (Except.ok (pid, err) : Except PyExn (Option String × Option String))
              = Except.ok (pid2, some m) →
            m ≠ "" → False := by
          intro pid2 m hg2 hm
          injection hg2 with h3
          injection h3 with h4 h5
          rw [h5] at ht
          simp [truthyOpt] at ht
          exact hm ht
        rw [if_neg ht] at h
        by_cases hm : (send_message env.msgResp).1 = true
        · rw [if_pos hm] at h
          injection h with h2
          subst h2
          refine ⟨⟨fun hctr => absurd hctr (by simp), ?_⟩,
            fun hcontra => absurd hcontra (by simp), ?_⟩
          · rintro (hnone | ⟨_, pid2, m, hg2, hmne⟩)
            · exact absurd hnone (by simp)
            · exact (hcontr pid2 m hg2 hmne).elim
          · intro pid2 m hg2 hmne _
            exact (hcontr pid2 m hg2 hmne).elim
        · rw [if_neg hm] at h
          by_cases hc : (send_connection_request env.invResp).1 = true
          · rw [if_pos hc] at h
            injection h with h2
            subst h2
            refine ⟨⟨fun hctr => absurd hctr (by simp), ?_⟩,
              fun hcontra => absurd hcontra (by simp), ?_⟩
            · rintro (hnone | ⟨_, pid2, m, hg2, hmne⟩)
              · exact absurd hnone (by simp)
              · exact (hcontr pid2 m hg2 hmne).elim
            · intro pid2 m hg2 hmne _
              exact (hcontr pid2 m hg2 hmne).elim
          · rw [if_neg hc] at h
            injection h with h2
            subst h2
            refine ⟨⟨fun hctr => absurd hctr (by simp), ?_⟩,
              fun hcontra => absurd hcontra (by simp), ?_⟩
            · rintro (hnone | ⟨_, pid2, m, hg2, hmne⟩)
              · exact absurd hnone (by simp)
              · exact (hcontr pid2 m hg2 hmne).elim
            · intro pid2 m hg2 hmne _
              exact (hcontr pid2 m hg2 hmne).elim

/-- C4 witness: a URL without a profile path ends with action None, status
Failed and the extraction failure text. -/
theorem C4_witness :
    (({ url := "notaurl", status := some "Failed",
        error := some "Could not extract username from URL: notaurl" } :
        OutreachResult).status = some "Failed")
    ∧ (({ url := "notaurl", status := some "Failed",
          error := some "Could not extract username from URL: notaurl" } :
          OutreachResult).error
        = some ("Could not extract username from URL: " ++ "notaurl")) :=
  (C4_theorem okDirEnv "notaurl" "t" "c" false
    { url := "notaurl", status := some "Failed",
      error := some "Could not extract username from URL: notaurl" }
    (by rfl)).2.1 (by decide)

/-- C5: the claim is right and the code is wrong.  A directory resolve
response that is HTTP 200 with a JSON body that is not an object makes the
attribute access in get_user_provider_id raise outside the caught request
exceptions; the exception escapes process_linkedin_profile, and the batch
loop of main has no handler, so the remaining profiles of the batch are
never processed even though the next one alone would succeed. -/
theorem C5_theorem :
    get_user_provider_id badDirEnv.resolveResp = .error .attributeError
    ∧ process_linkedin_profile badDirEnv
        "https://linkedin.com/in/alice" "t" "c" true = .error .attributeError
    ∧ runBatch "t" "c" true
        [(badDirEnv, "https://linkedin.com/in/alice"),
         (okDirEnv, "https://linkedin.com/in/carol")]
      = .error .attributeError
    ∧ process_linkedin_profile okDirEnv
        "https://linkedin.com/in/carol" "t" "c" true
      = .ok { url := "https://linkedin.com/in/carol", username := some "carol",
              job_title := some "CTO", provider_id := some "p1",
              action := some "Message", status := some "Success" } := by
  exact ⟨rfl, by rfl, by rfl, by rfl⟩

/-- C9 counterexample: with personalization disabled, a profile that
completes with a successful message send carries no job title at all, so
the generic label is not supplied on every completed result. -/
theorem C9_counterexample :
    process_linkedin_profile okDirEnv "https://linkedin.com/in/bob" "t" "c" false
      = .ok { url := "https://linkedin.com/in/bob", username := some "bob",
              job_title := none, provider_id := some "p1",
              action := some "Message", status := some "Success" } := by
  rfl

/-- C9 amended: whenever the job lookup fails or the response has neither
a first-experience title nor a headline, extract_job_title returns the
generic label Professional; with personalization enabled every result that
reaches the send stage records exactly the fetched job title; with
personalization disabled, and on failures before the send stage, the
job title field stays None, including on completed results. -/
theorem C9_theorem (env : DirEnv) (url mt ct : String) (r : OutreachResult) :
    (∀ resp, jobUnavailable resp = true → extract_job_title resp = "Professional")
    ∧ (process_linkedin_profile env url mt ct true = .ok r → r.action ≠ none →
        r.job_title = some (extract_job_title env.jobResp))
    ∧ (process_linkedin_profile env url mt ct false = .ok r →
        r.job_title = none) := by
  refine ⟨?_, ?_, ?_⟩
  · intro resp hun
    cases resp with
    | netError m => rfl
    | response st text json =>
      simp only [jobUnavailable, Bool.or_eq_true] at hun
      by_cases hst : raisesStatus st = true
      · simp [extract_job_title, hst]
      · rcases hun with hun | hun
        · exact absurd hun hst
        · cases json with
          | none => simp [extract_job_title, hst]
          | some b =>
            cases b with
            | notDict => simp [extract_job_title, hst]
            | dict pid headline exp =>
              simp only [Bool.and_eq_true, beq_iff_eq] at hun
              obtain ⟨hh, he⟩ := hun
              subst hh
              cases exp with
              | nil => simp [extract_job_title, hst]
              | cons e0 exps =>
                cases e0 with
                | none => simp [extract_job_title, hst]
                | some t => simp at he
  · intro h hact
    unfold process_linkedin_profile at h
    cases hx : extract_linkedin_username url with
    | none =>
      simp only [hx] at h
      injection h with h2
      subst h2
      simp at hact
    | some u =>
      simp only [hx] at h
      cases hg : get_user_provider_id env.resolveResp with
      | error e => simp only [hg] at h; simp at h
      | ok pe =>
        obtain ⟨pid, err⟩ := pe
        simp only [hg] at h
        by_cases ht : truthyOpt err = true
        · rw [if_pos ht] at h
          injection h with h2
          subst h2
          simp at hact
        · rw [if_neg ht] at h
          by_cases hm : (send_message env.msgResp).1 = true
          · rw [if_pos hm] at h
            injection h with h2
            subst h2
            rfl
          · rw [if_neg hm] at h
            by_cases hc : (send_connection_request env.invResp).1 = true
            · rw [if_pos hc] at h
              injection h with h2
              subst h2
              rfl
            · rw [if_neg hc] at h
              injection h with h2
              subst h2
              rfl
  · intro h
    unfold process_linkedin_profile at h
    cases hx : extract_linkedin_username url with
    | none =>
      simp only [hx] at h
      injection h with h2
      subst h2
      rfl
    | some u =>
      simp only [hx] at h
      cases hg : get_user_provider_id env.resolveResp with
      | error e => simp only [hg] at h; simp at h
      | ok pe =>
        obtain ⟨pid, err⟩ := pe
        simp only [hg] at h
        by_cases ht : truthyOpt err = true
        · rw [if_pos ht] at h
          injection h with h2
          subst h2
          rfl
        · rw [if_neg ht] at h
          by_cases hm : (send_message env.msgResp).1 = true
          · rw [if_pos hm] at h
            injection h with h2
            subst h2
            rfl
          · rw [if_neg hm] at h
            by_cases hc : (send_connection_request env.invResp).1 = true
            · rw [if_pos hc] at h
              injection h with h2
              subst h2
              rfl
            · rw [if_neg hc] at h
              injection h with h2
              subst h2
              rfl

/-- C9 witness: a failed lookup yields the generic label. -/
theorem C9_witness : extract_job_title (.netError "boom") = "Professional" :=
  (C9_theorem okDirEnv "u" "t" "c" { url := "u" }).1 (.netError "boom") (by decide)

/-- C3 counterexample: the code capitalizes the username with the Python
capitalize method, which lower-cases every character after the first, so
a username with an interior capital letter is not substituted with its
remaining characters unchanged as the claim states. -/
theorem C3_counterexample :
    personalizeText "\x7bname\x7d" "aB" "x" = "Ab"
    ∧ claimPersonalize "\x7bname\x7d" "aB" "x" = "AB"
    ∧ personalizeText "\x7bname\x7d" "aB" "x"
        ≠ claimPersonalize "\x7bname\x7d" "aB" "x" := by
  exact ⟨by decide, by decide, by decide⟩

/-- C3 amended: personalization substitutes the name placeholder with the
username first-character-upper-cased and remaining characters lower-cased,
and the job title placeholder with the job title, as two sequential literal
passes; on templates whose left braces all open a literal placeholder, and
usernames whose capitalized form has no left brace, this equals the
simultaneous one-pass substitution, and a template containing no
placeholder occurrence at all, unmatched braces included, passes through
unchanged. -/
theorem C3_theorem (tmpl username job : String) :
    (wfTmpl tmpl.data = true →
      (∀ c ∈ (pyCapitalize username).data, c ≠ '\x7b') →
      personalizeText tmpl username job
        = String.mk (simultSubst (pyCapitalize username).data job.data tmpl.data))
    ∧ (hasNamePh tmpl.data = false → hasJobPh tmpl.data = false →
        personalizeText tmpl username job = tmpl) := by
  constructor
  · intro hwf hnm
    unfold personalizeText
    rw [seq_eq_simult (pyCapitalize username).data job.data hnm tmpl.data.length
      tmpl.data le_rfl hwf]
  · intro h1 h2
    unfold personalizeText
    rw [replName_no_ph _ _ h1, replJob_no_ph _ _ h2]

/-- C3 witness: on a well-formed template the sequential passes equal the
simultaneous substitution. -/
theorem C3_witness :
    personalizeText "Hi \x7bname\x7d, a \x7bjob_title\x7d" "ann" "Engineer"
      = String.mk (simultSubst (pyCapitalize "ann").data "Engineer".data
          "Hi \x7bname\x7d, a \x7bjob_title\x7d".data) :=
  ( C3_theorem "Hi \x7bname\x7d, a \x7bjob_title\x7d" "ann" "Engineer").1
    (by decide) (by decide)


end Linke
